import Mathlib

/-!
Shallow embedding of the `ThreadPool` class from `src/ThreadPool.h`.

The pool owns a mutex-guarded FIFO `std::queue<std::function<void()>>` of
tasks, a `stop` flag, and a vector of worker threads.  Each worker loops:
wait on the condition variable until `stop || !tasks.empty()`; if
`stop && tasks.empty()` return (terminate); else pop the front task,
release the lock, and invoke the task.  `enqueue` wraps the callable in a
`std::packaged_task` (whose invocation stores either the returned value or
the thrown exception into the paired future), then under the mutex throws
`"enqueue on stopped ThreadPool"` when `stop` is set, else pushes at the
tail.  The destructor sets `stop` under the mutex, wakes all workers and
joins them.

The embedding models one pool as an explicit state and each guarded
critical section as one atomic step; interleavings of producers and
workers are lists of such steps.  Mutex acquisition and release inside a
single step are modelled separately as an event trace for the
lock-discipline property.
-/

namespace ThreadPool

/-- A work item as built by `ThreadPool::enqueue`: `id` identifies the
paired result handle (the `std::future` returned to the submitter) and
`run` is the packaged callable's outcome when invoked — `Except.ok v` when
the callable returns `v`, `Except.error e` when it throws `e` (a
`std::packaged_task` catches the exception and stores it into the shared
state instead of letting it escape). -/
structure WorkItem where
  id : Nat
  run : Unit → Except String Nat

/-- The state of a `ThreadPool` object.  `tasks` is the FIFO
`std::queue<std::function<void()>>`, head at the front; `stop` is the
stop flag; `workers` counts the spawned, not-yet-terminated worker
threads; `fulfilled` is the result-handle store: the `(handle id, outcome)`
pairs written by executed packaged tasks, in execution order.  `enqLog`
and `execLog` are history variables: the work items in enqueue-commit
order and in execution order.  They duplicate information only to state
ordering properties and are never read by any operation. -/
structure PoolState where
  tasks : List WorkItem
  stop : Bool
  workers : Nat
  fulfilled : List (Nat × Except String Nat)
  enqLog : List WorkItem
  execLog : List WorkItem

/-- `ThreadPool::ThreadPool(threads)`: member initialiser `stop(false)`,
empty queue, and a loop spawning exactly `threads` workers.  The body
contains no argument check. -/
def construct (threads : Nat) : PoolState :=
  { tasks := [], stop := false, workers := threads,
    fulfilled := [], enqLog := [], execLog := [] }

/-- The constructor viewed as a fallible operation.  The body of
`ThreadPool::ThreadPool` performs no validation of `threads` and contains
no throw statement, so as a fallible operation it succeeds on every
worker count, including `0`. -/
def constructE (threads : Nat) : Except String PoolState :=
  Except.ok (construct threads)

/-- Outcome of `ThreadPool::enqueue`: either the task was pushed and a
future returned, or `std::runtime_error(msg)` was thrown. -/
inductive EnqueueOutcome
  | accepted
  | rejected (msg : String)
deriving DecidableEq

/-- `ThreadPool::enqueue`, the guarded critical section: under the mutex,
if `stop` is set throw `"enqueue on stopped ThreadPool"` (the pool object
is left untouched), otherwise `tasks.emplace` at the tail.  The history
variable `enqLog` records the commit order. -/
def enqueue (p : PoolState) (w : WorkItem) : PoolState × EnqueueOutcome :=
  if p.stop then
    (p, EnqueueOutcome.rejected "enqueue on stopped ThreadPool")
  else
    ({ p with tasks := p.tasks ++ [w], enqLog := p.enqLog ++ [w] },
     EnqueueOutcome.accepted)

/-- What a completed wait hands the worker: either the shutdown exit
(`return` from the worker lambda) or the popped front item. -/
inductive DequeueResult
  | shutdown
  | item (w : WorkItem)

/-- The worker's guarded dequeue, lines 88–102 of `src/ThreadPool.h`:
`condition.wait(lock, [this]{ return stop || !tasks.empty(); })`, then
`if (stop && tasks.empty()) return;`, else `task = move(tasks.front());
tasks.pop();`.  `none` means the wait predicate is false and the worker
keeps waiting. -/
def dequeueOrWait (p : PoolState) : Option (DequeueResult × PoolState) :=
  if p.stop || !p.tasks.isEmpty then
    if p.stop && p.tasks.isEmpty then
      some (DequeueResult.shutdown, p)
    else
      match p.tasks with
      | [] => none
      | w :: rest => some (DequeueResult.item w, { p with tasks := rest })
  else
    none

/-- Invoking the dequeued task, `task();` in the worker body: the
packaged task runs the callable and writes its outcome (value or caught
exception) into the paired handle.  The write is total: nothing escapes. -/
def runWorkItem (p : PoolState) (w : WorkItem) : PoolState :=
  { p with fulfilled := p.fulfilled ++ [(w.id, w.run ())],
           execLog := p.execLog ++ [w] }

/-- What one iteration of the worker loop did. -/
inductive StepOutcome
  | waiting
  | terminated
  | ran (w : WorkItem)

/-- One iteration of the worker lambda's `for(;;)` loop: the guarded
dequeue followed, outside the critical section, by invoking the task.
`terminated` is the `return` that ends the worker thread. -/
def workerStep (p : PoolState) : PoolState × StepOutcome :=
  match dequeueOrWait p with
  | none => (p, StepOutcome.waiting)
  | some (DequeueResult.shutdown, q) =>
      ({ q with workers := q.workers - 1 }, StepOutcome.terminated)
  | some (DequeueResult.item w, q) => (runWorkItem q w, StepOutcome.ran w)

/-- The destructor's first critical section: `stop = true` under the
mutex. -/
def shutdownFlag (p : PoolState) : PoolState :=
  { p with stop := true }

/-- Worker iterations run repeatedly until every worker has terminated
(`worker.join()` for all workers), bounded by `fuel` steps. -/
def runWorkers : Nat → PoolState → PoolState
  | 0, p => p
  | Nat.succ fuel, p =>
      if p.workers = 0 then p else runWorkers fuel (workerStep p).1

/-- `ThreadPool::~ThreadPool`: raise the stop flag under the mutex, wake
all workers, join every worker.  Once `stop` is set every worker
iteration either pops a task or terminates a worker, so
`tasks.length + workers` steps always suffice for the joins to return. -/
def destructor (p : PoolState) : PoolState :=
  runWorkers (p.tasks.length + p.workers) (shutdownFlag p)

/-- A sequence of successful submissions, in order. -/
def enqueueAll : PoolState → List WorkItem → PoolState
  | p, [] => p
  | p, w :: ws => enqueueAll (enqueue p w).1 ws

/-- One atomic pool operation, for reasoning about arbitrary
interleavings of producers, workers and the shutdown flag raise. -/
inductive PoolOp
  | submit (w : WorkItem)
  | workerRun
  | raiseStop

/-- Apply one interleaved operation. -/
def applyPoolOp (p : PoolState) : PoolOp → PoolState
  | PoolOp.submit w => (enqueue p w).1
  | PoolOp.workerRun => (workerStep p).1
  | PoolOp.raiseStop => shutdownFlag p

/-- Run an interleaving of pool operations. -/
def runPool : PoolState → List PoolOp → PoolState
  | p, [] => p
  | p, op :: ops => runPool (applyPoolOp p op) ops

/-- Micro-events inside one guarded operation, used to state the lock
discipline. -/
inductive Event
  | lockAcquire
  | lockRelease
  | popFront (id : Nat)
  | pushBack (id : Nat)
  | invokeCallable (id : Nat)
deriving DecidableEq

/-- Whether an event is the invocation of a user-supplied callable. -/
def Event.isInvoke : Event → Bool
  | Event.invokeCallable _ => true
  | _ => false

/-- The event trace of one worker-loop iteration, following the source
line by line: acquire the lock (the wait holds it when the predicate is
true); on the shutdown exit the `unique_lock` destructor releases the
lock as `return` leaves the scope; otherwise pop the front, leave the
critical-section scope (release), and only then invoke the task. -/
def workerIterEvents (p : PoolState) : List Event :=
  if p.stop || !p.tasks.isEmpty then
    Event.lockAcquire ::
      (if p.stop && p.tasks.isEmpty then
        [Event.lockRelease]
      else
        match p.tasks with
        | [] => [Event.lockRelease]
        | w :: _ => [Event.popFront w.id, Event.lockRelease,
                     Event.invokeCallable w.id])
  else
    []

/-- The event trace of `ThreadPool::enqueue`: acquire the lock; on a
stopped pool the throw unwinds out of the scope releasing the lock;
otherwise push at the tail and leave the scope.  No invocation event
exists in either path. -/
def enqueueEvents (p : PoolState) (w : WorkItem) : List Event :=
  Event.lockAcquire ::
    (if p.stop then [Event.lockRelease]
     else [Event.pushBack w.id, Event.lockRelease])

/-- Scans an event list with the current lock-hold depth and checks that
every callable invocation happens at depth zero, i.e. with the mutex
released. -/
def callsOutsideLock : Nat → List Event → Bool
  | _, [] => true
  | held, Event.lockAcquire :: rest => callsOutsideLock (held + 1) rest
  | held, Event.lockRelease :: rest => callsOutsideLock (held - 1) rest
  | held, Event.invokeCallable _ :: rest =>
      (held == 0) && callsOutsideLock held rest
  | held, Event.popFront _ :: rest => callsOutsideLock held rest
  | held, Event.pushBack _ :: rest => callsOutsideLock held rest

/-- Sample item whose callable returns 5 on handle 0. -/
def sampleOk : WorkItem :=
  { id := 0, run := fun _ => Except.ok 5 }

/-- Sample item whose callable returns 7 on handle 1. -/
def sampleOk2 : WorkItem :=
  { id := 1, run := fun _ => Except.ok 7 }

/-- Sample item whose callable throws on handle 2. -/
def sampleFail : WorkItem :=
  { id := 2, run := fun _ => Except.error "boom" }

/-- A pool whose stop flag has been raised. -/
def stoppedPool : PoolState :=
  { tasks := [], stop := true, workers := 2,
    fulfilled := [], enqLog := [], execLog := [] }

/-- A live single-worker pool holding one pending task. -/
def readyPool : PoolState :=
  { tasks := [sampleOk], stop := false, workers := 1,
    fulfilled := [], enqLog := [sampleOk], execLog := [] }

/-- On a stopped pool with an empty queue the wait completes and the
worker takes the shutdown exit without touching the queue. -/
theorem dequeueOrWait_nil_stop (p : PoolState) (hstop : p.stop = true)
    (hnil : p.tasks = []) :
    dequeueOrWait p = some (DequeueResult.shutdown, p) := by
  simp [dequeueOrWait, hstop, hnil]

/-- On a non-empty queue the wait completes and the worker pops exactly
the head. -/
theorem dequeueOrWait_cons (p : PoolState) (w : WorkItem)
    (rest : List WorkItem) (h : p.tasks = w :: rest) :
    dequeueOrWait p = some (DequeueResult.item w, { p with tasks := rest }) := by
  simp [dequeueOrWait, h]

/-- With the stop flag down and the queue empty the wait predicate is
false: the iteration blocks. -/
theorem workerStep_waiting (p : PoolState) (hstop : p.stop = false)
    (hnil : p.tasks = []) :
    workerStep p = (p, StepOutcome.waiting) := by
  simp [workerStep, dequeueOrWait, hstop, hnil]

/-- Worker iteration on a stopped, drained pool: the thread returns. -/
theorem workerStep_nil_stop (p : PoolState) (hstop : p.stop = true)
    (hnil : p.tasks = []) :
    workerStep p = ({ p with workers := p.workers - 1 },
                    StepOutcome.terminated) := by
  simp [workerStep, dequeueOrWait_nil_stop p hstop hnil]

/-- Worker iteration on a non-empty queue: pop the head, run it, record
its outcome. -/
theorem workerStep_cons (p : PoolState) (w : WorkItem)
    (rest : List WorkItem) (h : p.tasks = w :: rest) :
    workerStep p =
      ({ p with tasks := rest,
                fulfilled := p.fulfilled ++ [(w.id, w.run ())],
                execLog := p.execLog ++ [w] },
       StepOutcome.ran w) := by
  simp [workerStep, dequeueOrWait_cons p w rest h, runWorkItem]

/-- A worker iteration never changes the stop flag. -/
theorem workerStep_stop_eq (p : PoolState) :
    (workerStep p).1.stop = p.stop := by
  cases hstop : p.stop with
  | false =>
    cases htasks : p.tasks with
    | nil => simp [workerStep_waiting p hstop htasks, hstop]
    | cons w rest => simp [workerStep_cons p w rest htasks, hstop]
  | true =>
    cases htasks : p.tasks with
    | nil => simp [workerStep_nil_stop p hstop htasks, hstop]
    | cons w rest => simp [workerStep_cons p w rest htasks, hstop]

/-- A worker terminates only when it has observed the stop flag raised
and the queue empty. -/
theorem workerStep_terminated (p : PoolState)
    (h : (workerStep p).2 = StepOutcome.terminated) :
    p.stop = true ∧ p.tasks = [] := by
  cases hstop : p.stop with
  | false =>
    cases htasks : p.tasks with
    | nil => rw [workerStep_waiting p hstop htasks] at h; simp at h
    | cons w rest => rw [workerStep_cons p w rest htasks] at h; simp at h
  | true =>
    cases htasks : p.tasks with
    | nil => exact ⟨rfl, rfl⟩
    | cons w rest => rw [workerStep_cons p w rest htasks] at h; simp at h

/-- Joining preserves the stop flag. -/
theorem runWorkers_stop_eq :
    ∀ (fuel : Nat) (p : PoolState), (runWorkers fuel p).stop = p.stop := by
  intro fuel
  induction fuel with
  | zero => intro p; rfl
  | succ k ih =>
    intro p
    by_cases h : p.workers = 0
    · simp [runWorkers, h]
    · simp [runWorkers, h, ih, workerStep_stop_eq]

/-- Once the stop flag is raised, running the workers with fuel at least
`tasks.length + workers` drains the queue in FIFO order, fulfils every
queued handle, and terminates every worker. -/
theorem runWorkers_drain :
    ∀ (fuel : Nat) (p : PoolState), p.stop = true →
    p.tasks.length + p.workers ≤ fuel →
    (1 ≤ p.workers ∨ p.tasks = []) →
    (runWorkers fuel p).tasks = [] ∧
    (runWorkers fuel p).workers = 0 ∧
    (runWorkers fuel p).fulfilled
      = p.fulfilled ++ p.tasks.map (fun w => (w.id, w.run ())) ∧
    (runWorkers fuel p).execLog = p.execLog ++ p.tasks := by
  intro fuel
  induction fuel with
  | zero =>
    intro p hstop hfuel hlive
    have hw : p.workers = 0 := by omega
    have ht : p.tasks.length = 0 := by omega
    have ht' : p.tasks = [] := List.eq_nil_of_length_eq_zero ht
    simp [runWorkers, ht', hw]
  | succ k ih =>
    intro p hstop hfuel hlive
    by_cases hw : p.workers = 0
    · rcases hlive with h1 | h1
      · omega
      · simp [runWorkers, hw, h1]
    · cases htasks : p.tasks with
      | nil =>
        have hq := workerStep_nil_stop p hstop htasks
        have hlen : p.tasks.length = 0 := by rw [htasks]; rfl
        have ih' := ih { p with workers := p.workers - 1 } hstop
          (show p.tasks.length + (p.workers - 1) ≤ k by omega)
          (Or.inr htasks)
        have hrw : runWorkers (k + 1) p
            = runWorkers k { p with workers := p.workers - 1 } := by
          simp [runWorkers, hw, hq]
        rw [hrw]
        simpa [htasks] using ih'
      | cons w rest =>
        have hq := workerStep_cons p w rest htasks
        have hlen : p.tasks.length = rest.length + 1 := by rw [htasks]; rfl
        have ih' := ih { p with tasks := rest, fulfilled := p.fulfilled ++ [(w.id, w.run ())], execLog := p.execLog ++ [w] } hstop (show rest.length + p.workers ≤ k by omega) (Or.inl (show 1 ≤ p.workers by omega))
        have hrw : runWorkers (k + 1) p = runWorkers k { p with tasks := rest, fulfilled := p.fulfilled ++ [(w.id, w.run ())], execLog := p.execLog ++ [w] } := by
          simp [runWorkers, hw, hq]
        rw [hrw]
        rcases ih' with ⟨h1, h2, h3, h4⟩
        refine ⟨h1, h2, ?_, ?_⟩
        · rw [h3]; simp
        · rw [h4]; simp

/-- Submitting a list of items to a live pool appends them, in order, to
the queue and the enqueue log, and changes nothing else. -/
theorem enqueueAll_fields (ws : List WorkItem) :
    ∀ (p : PoolState), p.stop = false →
    (enqueueAll p ws).tasks = p.tasks ++ ws ∧
    (enqueueAll p ws).stop = false ∧
    (enqueueAll p ws).workers = p.workers ∧
    (enqueueAll p ws).fulfilled = p.fulfilled ∧
    (enqueueAll p ws).enqLog = p.enqLog ++ ws ∧
    (enqueueAll p ws).execLog = p.execLog := by
  induction ws with
  | nil => intro p h; simp [enqueueAll, h]
  | cons w ws ih =>
    intro p h
    have hstep : (enqueue p w).1
        = { p with tasks := p.tasks ++ [w], enqLog := p.enqLog ++ [w] } := by
      simp [enqueue, h]
    have ih' := ih { p with tasks := p.tasks ++ [w],
                            enqLog := p.enqLog ++ [w] } h
    rw [show enqueueAll p (w :: ws) = enqueueAll (enqueue p w).1 ws from rfl,
        hstep]
    rcases ih' with ⟨h1, h2, h3, h4, h5, h6⟩
    refine ⟨?_, h2, h3, h4, ?_, h6⟩
    · rw [h1]; simp
    · rw [h5]; simp

/-- Full lifecycle of the scenario shared by several properties: build a
pool with at least one worker, submit `ws` in order, destroy the pool.
The destructor drains everything: the queue ends empty, every worker has
terminated, each submitted item's handle holds that item's own outcome,
and the execution log equals the submission log. -/
theorem destructor_enqueueAll (n : Nat) (ws : List WorkItem)
    (hn : 1 ≤ n) :
    (destructor (enqueueAll (construct n) ws)).tasks = [] ∧
    (destructor (enqueueAll (construct n) ws)).workers = 0 ∧
    (destructor (enqueueAll (construct n) ws)).fulfilled
      = ws.map (fun w => (w.id, w.run ())) ∧
    (destructor (enqueueAll (construct n) ws)).execLog = ws := by
  obtain ⟨h1, h2, h3, h4, h5, h6⟩ :=
    enqueueAll_fields ws (construct n) rfl
  have hdrain := runWorkers_drain
    ((enqueueAll (construct n) ws).tasks.length
      + (enqueueAll (construct n) ws).workers)
    (shutdownFlag (enqueueAll (construct n) ws)) rfl
    (le_refl _)
    (Or.inl (show 1 ≤ (enqueueAll (construct n) ws).workers by rw [h3]; exact hn))
  rcases hdrain with ⟨d1, d2, d3, d4⟩
  refine ⟨d1, d2, ?_, ?_⟩
  · have e : (destructor (enqueueAll (construct n) ws)).fulfilled
        = (enqueueAll (construct n) ws).fulfilled
          ++ (enqueueAll (construct n) ws).tasks.map (fun w => (w.id, w.run ())) := d3
    rw [e, h1, h4]
    simp [construct]
  · have e : (destructor (enqueueAll (construct n) ws)).execLog
        = (enqueueAll (construct n) ws).execLog
          ++ (enqueueAll (construct n) ws).tasks := d4
    rw [e, h1, h6]
    simp [construct]

/-- One interleaved operation preserves the queue/log identity: what has
been executed, followed by what is still queued, is exactly what was
enqueued, in commit order. -/
theorem applyPoolOp_inv (p : PoolState) (op : PoolOp)
    (h : p.execLog ++ p.tasks = p.enqLog) :
    (applyPoolOp p op).execLog ++ (applyPoolOp p op).tasks
      = (applyPoolOp p op).enqLog := by
  cases op with
  | submit w =>
    by_cases hs : p.stop
    · simp [applyPoolOp, enqueue, hs, h]
    · simp [applyPoolOp, enqueue, hs]
      rw [← List.append_assoc, h]
  | workerRun =>
    cases hstop : p.stop with
    | false =>
      cases htasks : p.tasks with
      | nil => simp [applyPoolOp, workerStep_waiting p hstop htasks, h]
      | cons w rest =>
        rw [applyPoolOp, workerStep_cons p w rest htasks]
        simp only []
        rw [← h, htasks]
        simp
    | true =>
      cases htasks : p.tasks with
      | nil => simp [applyPoolOp, workerStep_nil_stop p hstop htasks, h]
      | cons w rest =>
        rw [applyPoolOp, workerStep_cons p w rest htasks]
        simp only []
        rw [← h, htasks]
        simp
  | raiseStop => simp [applyPoolOp, shutdownFlag, h]

/-- The queue/log identity holds after any interleaving of submissions,
worker iterations and the shutdown raise. -/
theorem runPool_inv (ops : List PoolOp) :
    ∀ (p : PoolState), p.execLog ++ p.tasks = p.enqLog →
    (runPool p ops).execLog ++ (runPool p ops).tasks
      = (runPool p ops).enqLog := by
  induction ops with
  | nil => intro p h; exact h
  | cons op ops ih =>
    intro p h
    exact ih (applyPoolOp p op) (applyPoolOp_inv p op h)

/-- No interleaved operation clears a raised stop flag. -/
theorem applyPoolOp_stop (p : PoolState) (op : PoolOp)
    (h : p.stop = true) : (applyPoolOp p op).stop = true := by
  cases op with
  | submit w => simp [applyPoolOp, enqueue, h]
  | workerRun => simp [applyPoolOp, workerStep_stop_eq, h]
  | raiseStop => simp [applyPoolOp, shutdownFlag]

/-- No interleaving of operations clears a raised stop flag. -/
theorem runPool_stop (ops : List PoolOp) :
    ∀ (p : PoolState), p.stop = true → (runPool p ops).stop = true := by
  induction ops with
  | nil => intro p h; exact h
  | cons op ops ih =>
    intro p h
    exact ih (applyPoolOp p op) (applyPoolOp_stop p op h)

/-- C1: Drain-on-shutdown: for every pool constructed with at least one
worker and every sequence of successful submits `ws` followed by
destruction, all submitted work items are executed — every one of their
handles is fulfilled with its own outcome — and the destructor does not
return before the queue is empty and every worker has terminated;
moreover a worker terminates only after observing the stop flag raised
with the queue empty. -/
theorem drain_on_shutdown (n : Nat) (ws : List WorkItem) (hn : 1 ≤ n) :
    (destructor (enqueueAll (construct n) ws)).tasks = [] ∧
    (destructor (enqueueAll (construct n) ws)).workers = 0 ∧
    (destructor (enqueueAll (construct n) ws)).fulfilled
      = ws.map (fun w => (w.id, w.run ())) ∧
    (∀ p : PoolState, (workerStep p).2 = StepOutcome.terminated →
      p.stop = true ∧ p.tasks = []) := by
  obtain ⟨d1, d2, d3, d4⟩ := destructor_enqueueAll n ws hn
  exact ⟨d1, d2, d3, workerStep_terminated⟩

/-- Witness for C1: one worker, one submitted task; after destruction the
handle store holds exactly that task's outcome. -/
theorem drain_on_shutdown_witness :
    1 ≤ 1 ∧
    (destructor (enqueueAll (construct 1) [sampleOk])).fulfilled
      = [(0, Except.ok 5)] := by
  refine ⟨by decide, ?_⟩
  have h := (drain_on_shutdown 1 [sampleOk] (by decide)).2.2.1
  simpa [sampleOk] using h

/-- C2: No-enqueue-after-shutdown with atomicity on error: on a pool
whose stop flag is set, `enqueue` throws `"enqueue on stopped ThreadPool"`
and leaves the whole pool state — in particular the task queue, its
length and its contents — unchanged. -/
theorem no_enqueue_after_shutdown (p : PoolState) (w : WorkItem)
    (h : p.stop = true) :
    (enqueue p w).2
      = EnqueueOutcome.rejected "enqueue on stopped ThreadPool" ∧
    (enqueue p w).1 = p ∧
    (enqueue p w).1.tasks = p.tasks ∧
    (enqueue p w).1.tasks.length = p.tasks.length := by
  simp [enqueue, h]

/-- Witness for C2 at a concrete stopped pool. -/
theorem no_enqueue_after_shutdown_witness :
    stoppedPool.stop = true ∧
    (enqueue stoppedPool sampleOk).1 = stoppedPool ∧
    (enqueue stoppedPool sampleOk).2
      = EnqueueOutcome.rejected "enqueue on stopped ThreadPool" := by
  refine ⟨rfl, ?_, ?_⟩
  · exact (no_enqueue_after_shutdown stoppedPool sampleOk rfl).2.1
  · exact (no_enqueue_after_shutdown stoppedPool sampleOk rfl).1

/-- C3: dequeue-or-wait semantics: when the worker's wait completes (the
predicate `stop || !tasks.empty()` holds), the dequeue yields a result;
if the stop flag is set and the queue is empty it yields the shutdown
exit without popping anything; otherwise the queue is non-empty and the
worker removes exactly the head, which is the item it subsequently
executes. -/
theorem dequeue_or_wait_spec (p : PoolState)
    (hwait : p.stop = true ∨ p.tasks ≠ []) :
    dequeueOrWait p ≠ none ∧
    (p.stop = true ∧ p.tasks = [] →
      dequeueOrWait p = some (DequeueResult.shutdown, p)) ∧
    (∀ w rest, p.tasks = w :: rest →
      dequeueOrWait p
        = some (DequeueResult.item w, { p with tasks := rest }) ∧
      (workerStep p).2 = StepOutcome.ran w ∧
      (workerStep p).1.execLog = p.execLog ++ [w]) := by
  refine ⟨?_, ?_, ?_⟩
  · rcases hwait with h | h
    · cases htasks : p.tasks with
      | nil => rw [dequeueOrWait_nil_stop p h htasks]; simp
      | cons w rest => rw [dequeueOrWait_cons p w rest htasks]; simp
    · cases htasks : p.tasks with
      | nil => exact absurd htasks h
      | cons w rest => rw [dequeueOrWait_cons p w rest htasks]; simp
  · rintro ⟨h1, h2⟩
    exact dequeueOrWait_nil_stop p h1 h2
  · intro w rest hw2
    refine ⟨dequeueOrWait_cons p w rest hw2, ?_, ?_⟩
    · rw [workerStep_cons p w rest hw2]
    · rw [workerStep_cons p w rest hw2]

/-- Witness for C3 at a live pool with one pending task: the wait
predicate holds and the dequeue completes. -/
theorem dequeue_or_wait_spec_witness :
    (readyPool.stop = true ∨ readyPool.tasks ≠ []) ∧
    dequeueOrWait readyPool ≠ none := by
  have hw : readyPool.stop = true ∨ readyPool.tasks ≠ [] :=
    Or.inr (by simp [readyPool])
  exact ⟨hw, (dequeue_or_wait_spec readyPool hw).1⟩

/-- C4: FIFO ordering: under every interleaving of submissions, worker
iterations and the shutdown raise, the executed items followed by the
still-queued items equal the enqueued items in commit order (dequeues
consume the queue in exactly enqueue order); and for a pool with exactly
one worker, the execution order after destruction equals the submission
order. -/
theorem fifo_order (n : Nat) (ops : List PoolOp) (ws : List WorkItem) :
    (runPool (construct n) ops).execLog
        ++ (runPool (construct n) ops).tasks
      = (runPool (construct n) ops).enqLog ∧
    (destructor (enqueueAll (construct 1) ws)).execLog = ws := by
  constructor
  · exact runPool_inv ops (construct n) rfl
  · exact (destructor_enqueueAll 1 ws (le_refl 1)).2.2.2

/-- C5: Failure capture and isolation: a worker that dequeues an item
always continues as `ran` (a throwing callable never terminates the
worker and nothing propagates out of the loop — the step is total), the
item's outcome, value or exception, is written into its own paired
handle, and after a full run every submitted item's handle holds that
item's own outcome regardless of other items failing. -/
theorem failure_isolation (n : Nat) (ws : List WorkItem) (hn : 1 ≤ n) :
    (∀ (p : PoolState) (w : WorkItem) (rest : List WorkItem),
      p.tasks = w :: rest →
      (workerStep p).2 = StepOutcome.ran w ∧
      (workerStep p).1.workers = p.workers ∧
      (workerStep p).1.stop = p.stop ∧
      (workerStep p).1.fulfilled = p.fulfilled ++ [(w.id, w.run ())]) ∧
    (∀ w ∈ ws, (w.id, w.run ())
      ∈ (destructor (enqueueAll (construct n) ws)).fulfilled) := by
  constructor
  · intro p w rest h
    rw [workerStep_cons p w rest h]
    exact ⟨rfl, rfl, rfl, rfl⟩
  · intro w hw
    rw [(destructor_enqueueAll n ws hn).2.2.1]
    exact List.mem_map_of_mem _ hw

/-- Witness for C5: a throwing task and a value-returning task submitted
together; the first handle holds the exception, the second its value. -/
theorem failure_isolation_witness :
    1 ≤ 2 ∧
    (2, Except.error "boom")
      ∈ (destructor
          (enqueueAll (construct 2) [sampleFail, sampleOk2])).fulfilled ∧
    (1, Except.ok 7)
      ∈ (destructor
          (enqueueAll (construct 2) [sampleFail, sampleOk2])).fulfilled := by
  refine ⟨by decide, ?_, ?_⟩
  · have h := (failure_isolation 2 [sampleFail, sampleOk2] (by decide)).2
      sampleFail (by simp)
    simpa [sampleFail] using h
  · have h := (failure_isolation 2 [sampleFail, sampleOk2] (by decide)).2
      sampleOk2 (by simp)
    simpa [sampleOk2] using h

/-- C6: Lock discipline: in every reachable state, the event trace of a
worker iteration invokes the user callable only at lock-hold depth zero
(the critical-section scope ends before `task()` is called), and the
event trace of `enqueue` contains no callable invocation at all. -/
theorem lock_discipline (p : PoolState) (w : WorkItem) :
    callsOutsideLock 0 (workerIterEvents p) = true ∧
    (enqueueEvents p w).all (fun e => ! e.isInvoke) = true := by
  constructor
  · cases hstop : p.stop with
    | false =>
      cases htasks : p.tasks with
      | nil => simp [workerIterEvents, callsOutsideLock, hstop, htasks]
      | cons v rest =>
        simp [workerIterEvents, callsOutsideLock, hstop, htasks]
    | true =>
      cases htasks : p.tasks with
      | nil => simp [workerIterEvents, callsOutsideLock, hstop, htasks]
      | cons v rest =>
        simp [workerIterEvents, callsOutsideLock, hstop, htasks]
  · by_cases hs : p.stop <;> simp [enqueueEvents, Event.isInvoke, hs]

/-- C7: Shutdown-flag monotonicity: the flag is false at construction;
from any state in which it is raised, no interleaving of submissions,
worker iterations and shutdown raises clears it, nor does the
destructor, a single enqueue, or a single worker iteration. -/
theorem stop_monotone (n : Nat) (p : PoolState) (ops : List PoolOp)
    (h : p.stop = true) :
    (construct n).stop = false ∧
    (runPool p ops).stop = true ∧
    (destructor p).stop = true ∧
    (∀ w, (enqueue p w).1.stop = true) ∧
    (workerStep p).1.stop = true := by
  refine ⟨rfl, runPool_stop ops p h, ?_, ?_, ?_⟩
  · have e : (destructor p).stop = (shutdownFlag p).stop :=
      runWorkers_stop_eq (p.tasks.length + p.workers) (shutdownFlag p)
    rw [e]
    rfl
  · intro w
    simp [enqueue, h]
  · rw [workerStep_stop_eq]
    exact h

/-- Witness for C7 at a concrete stopped pool. -/
theorem stop_monotone_witness :
    stoppedPool.stop = true ∧
    (runPool stoppedPool []).stop = true ∧
    (destructor stoppedPool).stop = true :=
  ⟨rfl, (stop_monotone 1 stoppedPool [] rfl).2.1,
    (stop_monotone 1 stoppedPool [] rfl).2.2.1⟩

/-- C8: At-most-once execution: after a full lifecycle the execution log
is exactly the submission list, so with distinct handle ids every
submitted item's callable was invoked exactly once; and an item is
removed from the queue before it is executed. -/
theorem at_most_once (n : Nat) (ws : List WorkItem) (hn : 1 ≤ n)
    (hids : (ws.map WorkItem.id).Nodup) :
    (destructor (enqueueAll (construct n) ws)).execLog = ws ∧
    (∀ w ∈ ws,
      ((destructor (enqueueAll (construct n) ws)).execLog.map
        WorkItem.id).count w.id = 1) ∧
    (∀ (p : PoolState) (w : WorkItem) (rest : List WorkItem),
      p.tasks = w :: rest → (workerStep p).1.tasks = rest) := by
  have hexec := (destructor_enqueueAll n ws hn).2.2.2
  refine ⟨hexec, ?_, ?_⟩
  · intro w hw
    rw [hexec]
    exact List.count_eq_one_of_mem hids (List.mem_map_of_mem _ hw)
  · intro p w rest h
    rw [workerStep_cons p w rest h]

/-- Witness for C8: two distinct tasks through a one-worker pool. -/
theorem at_most_once_witness :
    (1 ≤ 1 ∧ ([sampleOk, sampleOk2].map WorkItem.id).Nodup) ∧
    (destructor (enqueueAll (construct 1) [sampleOk, sampleOk2])).execLog
      = [sampleOk, sampleOk2] := by
  refine ⟨⟨by decide, by decide⟩, ?_⟩
  exact (at_most_once 1 [sampleOk, sampleOk2] (by decide) (by decide)).1

/-- C9 counterexample: the constructor performs no argument validation:
at worker count 0 it succeeds, returning an ordinary pool state with
zero workers, an empty queue and the stop flag down, instead of
signalling InvalidArgument. -/
theorem construct_zero_not_rejected :
    constructE 0 = Except.ok (construct 0) ∧
    (construct 0).workers = 0 ∧
    (construct 0).stop = false ∧
    (construct 0).tasks = [] :=
  ⟨rfl, rfl, rfl, rfl⟩

/-- C9 (amended): the constructor accepts every worker count, including
0: it never signals an error; it initialises the stop flag to false with
an empty queue and spawns exactly the requested number of workers. -/
theorem construct_no_validation (threads : Nat) :
    constructE threads = Except.ok (construct threads) ∧
    (construct threads).workers = threads ∧
    (construct threads).stop = false ∧
    (construct threads).tasks = [] :=
  ⟨rfl, rfl, rfl, rfl⟩

/-- C10: Frame property of the queue operations: a successful enqueue on
a non-stopped pool appends exactly one item at the tail and leaves the
existing items, their order, the stop flag, the worker count and the
handle store unchanged; a worker's dequeue removes exactly the head and
leaves the remaining items in order, the stop flag and the worker count
unchanged. -/
theorem queue_frame (p q : PoolState) (w hd : WorkItem)
    (rest : List WorkItem) (hp : p.stop = false)
    (hq : q.tasks = hd :: rest) :
    (enqueue p w).1.tasks = p.tasks ++ [w] ∧
    (enqueue p w).1.stop = p.stop ∧
    (enqueue p w).1.workers = p.workers ∧
    (enqueue p w).1.fulfilled = p.fulfilled ∧
    (enqueue p w).2 = EnqueueOutcome.accepted ∧
    (workerStep q).1.tasks = rest ∧
    (workerStep q).1.stop = q.stop ∧
    (workerStep q).1.workers = q.workers := by
  have hstep := workerStep_cons q hd rest hq
  refine ⟨?_, ?_, ?_, ?_, ?_, ?_, ?_, ?_⟩
  · simp [enqueue, hp]
  · simp [enqueue, hp]
  · simp [enqueue, hp]
  · simp [enqueue, hp]
  · simp [enqueue, hp]
  · rw [hstep]
  · rw [hstep]
  · rw [hstep]

/-- Witness for C10: a fresh one-worker pool for the enqueue side and a
pool with one pending task for the dequeue side. -/
theorem queue_frame_witness :
    ((construct 1).stop = false ∧ readyPool.tasks = sampleOk :: []) ∧
    (enqueue (construct 1) sampleOk2).1.tasks
      = (construct 1).tasks ++ [sampleOk2] ∧
    (workerStep readyPool).1.tasks = [] := by
  have h := queue_frame (construct 1) readyPool sampleOk2 sampleOk [] rfl rfl
  exact ⟨⟨rfl, rfl⟩, h.1, h.2.2.2.2.2.1⟩

end ThreadPool
